import Mathlib

/-!
Shallow embedding of the vita-pack-vpk tool (src/bin/vita-pack-vpk/src/main.rs).

The program builds a manifest (a vector of AddList records, each a source
path on disk and a destination path inside the archive) from two mandatory
inputs (the sfo metadata file and the eboot binary) plus zero or more
"src=dst" add declarations, then packs every manifest entry into a zip
container, stored uncompressed with unix permission bits 0o755.

The filesystem is modelled as a finite association list from path strings
to nodes; paths use forward slashes.  Rust file reads and archive writes
are modelled as pure functions over this filesystem together with a fault
oracle standing for zip-writer I/O failures.  Byte strings are lists of
naturals.
-/

/-- A filesystem object: a regular file with its byte contents and unix
permission bits, a directory, or any other node kind (device file, socket,
and so on). -/
inductive FsNode where
  | file (bytes : List Nat) (perms : Nat)
  | dir
  | other
deriving DecidableEq

/-- A filesystem: a finite association list from path to node. -/
def Fs : Type := List (String × FsNode)

/-- First node registered at a path, if any. -/
def fsFind : Fs → String → Option FsNode
  | [], _ => none
  | (q, n) :: rest, p => if q = p then some n else fsFind rest p

/-- Rust Path::exists on the model. -/
def path_exists (fs : Fs) (p : String) : Bool :=
  (fsFind fs p).isSome

/-- Rust Path::is_file on the model. -/
def is_file (fs : Fs) (p : String) : Bool :=
  match fsFind fs p with
  | some (.file _ _) => true
  | _ => false

/-- Rust Path::is_dir on the model. -/
def is_dir (fs : Fs) (p : String) : Bool :=
  match fsFind fs p with
  | some .dir => true
  | _ => false

/-- Opening and fully reading a source file (File::open + read_to_end):
succeeds exactly on regular files, returning their bytes. -/
def readFile (fs : Fs) (p : String) : Option (List Nat) :=
  match fsFind fs p with
  | some (.file b _) => some b
  | _ => none

/-- The AddList struct of the source: one manifest entry, a source path on
disk and a destination path inside the vpk archive. -/
structure AddList where
  src : String
  dst : String
deriving DecidableEq

/-- Default SFO destination inside the vpk (DEFAULT_SFO_VPK_PATH). -/
def DEFAULT_SFO_VPK_PATH : String := "sce_sys/param.sfo"

/-- Default EBOOT destination inside the vpk (DEFAULT_EBOOT_VPK_PATH). -/
def DEFAULT_EBOOT_VPK_PATH : String := "eboot.bin"

/-- The error kinds the program can signal.  notFound covers both the clap
check_file rejection of a missing path and the NOINPUT process exit of
make_add_list; notAFile is the clap rejection of an existing non-regular
path; invalidAdd is the clap check_add rejection; cannotCreate is the
CANTCREAT exit of make_file; sourceUnreadable and containerWrite are the
zip-stage I/O failures propagated by the question-mark operator. -/
inductive PackError where
  | notFound
  | notAFile
  | invalidAdd
  | cannotCreate
  | sourceUnreadable
  | containerWrite
deriving DecidableEq

/-- Splitting a character list at every occurrence of a separator
character, keeping empty pieces, exactly like Rust str::split. -/
def splitCh (c : Char) : List Char → List (List Char)
  | [] => [[]]
  | x :: xs =>
    match splitCh c xs with
    | r :: rs => if x = c then [] :: r :: rs else (x :: r) :: rs
    | [] => [[]]

/-- check_add from the source: a declaration string is accepted when it
contains an equals sign and has length at least 3 (Rust measures bytes,
the model measures characters; they agree on ASCII arguments). -/
def check_add (var : String) : Bool :=
  var.toList.contains '=' && decide (3 ≤ var.toList.length)

/-- check_file from the source: the clap validator for the sfo and eboot
arguments, requiring an existing regular file. -/
def check_file (fs : Fs) (file : String) : Except PackError Unit :=
  if path_exists fs file = false then .error .notFound
  else if is_file fs file = false then .error .notAFile
  else .ok ()

/-- make_add_list from the source: checks that the source path exists
(otherwise the program exits with NOINPUT, modelled as the notFound
error) and pairs it with the destination string. -/
def make_add_list (fs : Fs) (src_path : String) (dst_path : String) :
    Except PackError AddList :=
  if path_exists fs src_path then .ok ⟨src_path, dst_path⟩
  else .error .notFound

/-- parse_add from the source: splits the declaration at every equals
sign, takes piece 0 as the source and piece 1 as the destination, and
builds the AddList through make_add_list.  Pieces beyond the second are
dropped.  (Rust would panic when no equals sign is present; that case is
unreachable behind check_add and is modelled by an empty destination.) -/
def parse_add (fs : Fs) (arg_add : String) : Except PackError AddList :=
  let splitted := splitCh '=' arg_add.toList
  make_add_list fs (String.mk (splitted.headD []))
    (String.mk (splitted.getD 1 []))

/-- Character-list test that pre is a prefix of s. -/
def listPre : List Char → List Char → Bool
  | [], _ => true
  | _ :: _, [] => false
  | a :: as, b :: bs => a = b && listPre as bs

/-- The recursive walk of WalkDir::new(root): every registered path equal
to the root or lying beneath it (the root followed by a slash). -/
def walkPaths (fs : Fs) (root : String) : List String :=
  fs.filterMap fun pn =>
    if pn.1 = root || listPre (root ++ "/").toList pn.1.toList
    then some pn.1 else none

/-- walk_list from the source: iterates over every entry of the recursive
walk of addlist.src, computes a stripped name for it and drops it.  The
loop body never pushes onto the result vector (in the source the vector
is even returned uninitialized), so the walk contributes no entries at
all. -/
def walk_list (fs : Fs) (addlist : AddList) : List AddList :=
  (walkPaths fs addlist.src).foldl (fun acc _ => acc) []

/-- The add-loop body of build_list for one declaration string: the whole
"src=dst" string itself is tested as a path; when it is a regular file
the parsed pair is pushed, when it is a directory the result of walk_list
on the parsed pair is appended, and otherwise nothing happens.  (The
source writes two consecutive ifs; they are mutually exclusive because a
path is at most one node kind.) -/
def add_entry (fs : Fs) (entry : String) : Except PackError (List AddList) :=
  if is_file fs entry then
    match parse_add fs entry with
    | .error e => .error e
    | .ok a => .ok [a]
  else if is_dir fs entry then
    match parse_add fs entry with
    | .error e => .error e
    | .ok a => .ok (walk_list fs a)
  else .ok []

/-- The add-loop of build_list over all declaration strings, in order. -/
def add_loop (fs : Fs) : List String → Except PackError (List AddList)
  | [] => .ok []
  | e :: rest =>
    match add_entry fs e with
    | .error err => .error err
    | .ok xs =>
      match add_loop fs rest with
      | .error err => .error err
      | .ok ys => .ok (xs ++ ys)

/-- build_list from the source: pushes the sfo entry, then the eboot
entry, then everything the add declarations contribute. -/
def build_list (fs : Fs) (sfo eboot : String) (adds : List String) :
    Except PackError (List AddList) :=
  match make_add_list fs sfo DEFAULT_SFO_VPK_PATH with
  | .error e => .error e
  | .ok sfoEntry =>
    match make_add_list fs eboot DEFAULT_EBOOT_VPK_PATH with
    | .error e => .error e
    | .ok ebootEntry =>
      match add_loop fs adds with
      | .error e => .error e
      | .ok rest => .ok (sfoEntry :: ebootEntry :: rest)

/-- The compression method of a zip record. -/
inductive Method where
  | stored
  | deflated
deriving DecidableEq

/-- One record of the zip container: its archive name, its bytes, the
compression method it was written with and its unix permission bits. -/
structure Record where
  name : String
  bytes : List Nat
  method : Method
  perms : Nat
deriving DecidableEq

/-- The observable outcome of running the packaging stage: whether the
output container file was created (truncate-or-create of make_file), the
records written into it so far, whether the central directory was
finalized, and the error if one stopped the run. -/
structure PackResult where
  outCreated : Bool
  records : List Record
  finished : Bool
  error : Option PackError
deriving DecidableEq

/-- Fault oracle for the zip writer: writeFails i says that writing the
record of entry number i (start_file or write_all) reports an I/O error,
finishFails that vpk_writer.finish does. -/
structure Faults where
  writeFails : Nat → Bool
  finishFails : Bool

/-- The fault-free oracle: every writer operation succeeds. -/
def noFaults : Faults := ⟨fun _ => false, false⟩

/-- The record the pack loop writes for one manifest entry: its bytes are
the bytes of the source file, its method Stored, its permissions 0o755
(FileOptions::default().compression_method(Stored).unix_permissions(0o755)). -/
def recOf (fs : Fs) (pair : AddList) : Record :=
  ⟨pair.dst, (readFile fs pair.src).getD [], .stored, 0o755⟩

/-- The for-loop of pack_vpk: for each entry in list order, open and read
the source (failing with sourceUnreadable when that is impossible), then
write the record (failing with containerWrite when the oracle says so);
the question-mark operator stops the loop at the first failure, keeping
the records already written. -/
def packLoop (fs : Fs) (flt : Faults) :
    List AddList → Nat → List Record → List Record × Option PackError
  | [], _, recs => (recs, none)
  | pair :: rest, i, recs =>
    match readFile fs pair.src with
    | none => (recs, some .sourceUnreadable)
    | some _ =>
      if flt.writeFails i then (recs, some .containerWrite)
      else packLoop fs flt rest (i + 1) (recs ++ [recOf fs pair])

/-- pack_vpk from the source: make_file first creates (truncating if
present) the output container (exiting with CANTCREAT when impossible,
modelled by the canCreate flag), then the loop writes every entry in
list order, then finish writes the central directory.  A failure leaves
the partially written file on disk exactly as it is. -/
def pack_vpk (fs : Fs) (flt : Faults) (canCreate : Bool)
    (addlist : List AddList) : PackResult :=
  if canCreate = false then ⟨false, [], false, some .cannotCreate⟩
  else
    match packLoop fs flt addlist 0 [] with
    | (recs, some e) => ⟨true, recs, false, some e⟩
    | (recs, none) =>
      if flt.finishFails then ⟨true, recs, false, some .containerWrite⟩
      else ⟨true, recs, true, none⟩

/-- Reading the container back: the record a zip reader reports under a
name is the last one written with that name. -/
def readback (recs : List Record) (name : String) : Option Record :=
  recs.reverse.find? fun r => r.name == name

/-- The whole program run: clap validates the sfo path, the eboot path
and every add declaration (in that order), then build_list resolves the
manifest, then pack_vpk packs it.  A validation or resolution failure
terminates the process before the output container is ever touched. -/
def main_run (fs : Fs) (flt : Faults) (canCreate : Bool)
    (sfo eboot : String) (adds : List String) : PackResult :=
  match check_file fs sfo with
  | .error e => ⟨false, [], false, some e⟩
  | .ok _ =>
  match check_file fs eboot with
  | .error e => ⟨false, [], false, some e⟩
  | .ok _ =>
  if adds.all check_add = false then ⟨false, [], false, some .invalidAdd⟩
  else
    match build_list fs sfo eboot adds with
    | .error e => ⟨false, [], false, some e⟩
    | .ok l => pack_vpk fs flt canCreate l

/-! ## Helper lemmas -/

/-- A path that is a regular file exists. -/
theorem is_file_exists {fs : Fs} {p : String} (h : is_file fs p = true) :
    path_exists fs p = true := by
  unfold is_file at h
  unfold path_exists
  cases hf : fsFind fs p with
  | none => rw [hf] at h; simp at h
  | some n => simp

/-- Rebuilding a string from its character list gives it back. -/
theorem mk_toList (s : String) : String.mk s.toList = s := by
  cases s
  rfl

/-- make_add_list succeeds on an existing source path. -/
theorem make_add_list_ok {fs : Fs} {src dst : String}
    (h : path_exists fs src = true) :
    make_add_list fs src dst = .ok ⟨src, dst⟩ := by
  simp [make_add_list, h]

/-- When every source of the list is a readable file, the fault-free pack
loop writes exactly one record per entry, in list order, appended to the
accumulator, and reports no error. -/
theorem packLoop_ok (fs : Fs) (l : List AddList) :
    ∀ (i : Nat) (recs : List Record),
      (∀ p ∈ l, (readFile fs p.src).isSome = true) →
      packLoop fs noFaults l i recs = (recs ++ l.map (recOf fs), none) := by
  induction l with
  | nil => intro i recs _; simp [packLoop]
  | cons pair rest ih =>
    intro i recs h
    obtain ⟨b, hb⟩ := Option.isSome_iff_exists.mp (h pair (by simp))
    have ihr := ih (i + 1) (recs ++ [recOf fs pair])
      (fun p hm => h p (by simp [hm]))
    have hw : noFaults.writeFails i = false := rfl
    simp [packLoop, hb, hw, ihr]

/-- When the pack loop reports no error, every source was readable and
one record per entry was appended, in list order. -/
theorem packLoop_none (fs : Fs) (flt : Faults) (l : List AddList) :
    ∀ (i : Nat) (recs : List Record),
      (packLoop fs flt l i recs).2 = none →
      (∀ p ∈ l, (readFile fs p.src).isSome = true) ∧
      (packLoop fs flt l i recs).1 = recs ++ l.map (recOf fs) := by
  induction l with
  | nil => intro i recs _; simp [packLoop]
  | cons pair rest ih =>
    intro i recs h
    cases hb : readFile fs pair.src with
    | none => simp [packLoop, hb] at h
    | some b =>
      by_cases hw : flt.writeFails i = true
      · simp [packLoop, hb, hw] at h
      · simp only [packLoop, hb, hw, Bool.false_eq_true, if_false] at h ⊢
        obtain ⟨hread, h1⟩ := ih (i + 1) (recs ++ [recOf fs pair]) h
        refine ⟨?_, ?_⟩
        · intro p hp
          rcases List.mem_cons.mp hp with hpq | hpr
          · subst hpq; simp [hb]
          · exact hread p hpr
        · rw [h1]; simp

/-- When the pack loop reports an error, the records it leaves behind are
exactly the records of some readable prefix of the entry list. -/
theorem packLoop_err (fs : Fs) (flt : Faults) (l : List AddList) :
    ∀ (i : Nat) (recs : List Record) (e : PackError),
      (packLoop fs flt l i recs).2 = some e →
      ∃ k, k ≤ l.length ∧
        (∀ p ∈ l.take k, (readFile fs p.src).isSome = true) ∧
        (packLoop fs flt l i recs).1 = recs ++ (l.take k).map (recOf fs) := by
  induction l with
  | nil => intro i recs e h; simp [packLoop] at h
  | cons pair rest ih =>
    intro i recs e h
    cases hb : readFile fs pair.src with
    | none =>
      refine ⟨0, by simp, by simp, ?_⟩
      simp [packLoop, hb]
    | some b =>
      by_cases hw : flt.writeFails i = true
      · exact ⟨0, by simp, by simp, by simp [packLoop, hb, hw]⟩
      · simp only [packLoop, hb, hw, Bool.false_eq_true, if_false] at h ⊢
        obtain ⟨k, hk, hread, h1⟩ := ih (i + 1) (recs ++ [recOf fs pair]) e h
        refine ⟨k + 1, by simpa using hk, ?_, ?_⟩
        · intro p hp
          rw [List.take_succ_cons] at hp
          rcases List.mem_cons.mp hp with hpq | hpr
          · subst hpq; simp [hb]
          · exact hread p hpr
        · rw [h1, List.take_succ_cons]; simp

/-- Every record the pack loop leaves behind is an accumulator record or
the record of some manifest entry. -/
theorem packLoop_mem (fs : Fs) (flt : Faults) (l : List AddList) :
    ∀ (i : Nat) (recs : List Record) (r : Record),
      r ∈ (packLoop fs flt l i recs).1 →
      r ∈ recs ∨ ∃ p, r = recOf fs p := by
  induction l with
  | nil => intro i recs r h; simp [packLoop] at h; exact Or.inl h
  | cons pair rest ih =>
    intro i recs r h
    cases hb : readFile fs pair.src with
    | none => simp [packLoop, hb] at h; exact Or.inl h
    | some b =>
      by_cases hw : flt.writeFails i = true
      · simp [packLoop, hb, hw] at h; exact Or.inl h
      · simp only [packLoop, hb, hw, Bool.false_eq_true, if_false] at h
        rcases ih (i + 1) (recs ++ [recOf fs pair]) r h with hr | hr
        · rcases List.mem_append.mp hr with h1 | h1
          · exact Or.inl h1
          · exact Or.inr ⟨pair, by simpa using h1⟩
        · exact Or.inr hr

/-- With the output file creatable, the records of the pack result are
the records the pack loop left behind, whatever else happened. -/
theorem pack_vpk_records (fs : Fs) (flt : Faults) (l : List AddList) :
    (pack_vpk fs flt true l).records = (packLoop fs flt l 0 []).1 := by
  rcases hpl : packLoop fs flt l 0 [] with ⟨recs, err⟩
  cases err with
  | none =>
    by_cases hf : flt.finishFails = true <;> simp [pack_vpk, hpl, hf]
  | some e => simp [pack_vpk, hpl]

/-- With destinations free of duplicates, filtering the written records
by the destination of a manifest entry keeps exactly that entry's record. -/
theorem filter_recOf_eq (fs : Fs) (l : List AddList) (p : AddList)
    (hnodup : (l.map AddList.dst).Nodup) (hp : p ∈ l) :
    (l.map (recOf fs)).filter (fun r => r.name == p.dst) = [recOf fs p] := by
  induction l with
  | nil => cases hp
  | cons q rest ih =>
    simp only [List.map_cons, List.nodup_cons] at hnodup
    obtain ⟨hq, hrest⟩ := hnodup
    rcases List.mem_cons.mp hp with hpq | hpr
    · subst hpq
      simp only [List.map_cons, List.filter_cons]
      have hname : ((recOf fs p).name == p.dst) = true := by simp [recOf]
      rw [if_pos hname]
      have hnil : (rest.map (recOf fs)).filter (fun r => r.name == p.dst) = [] := by
        rw [List.filter_eq_nil_iff]
        intro r hr
        obtain ⟨x, hx, hrx⟩ := List.mem_map.mp hr
        subst hrx
        simp only [recOf, beq_iff_eq]
        intro hxd
        exact hq (hxd ▸ List.mem_map_of_mem AddList.dst hx)
      rw [hnil]
    · have hqne : (( recOf fs q).name == p.dst) = false := by
        simp only [recOf, beq_eq_false_iff_ne, ne_eq]
        intro hqd
        exact hq (hqd ▸ List.mem_map_of_mem AddList.dst hpr)
      simp only [List.map_cons, List.filter_cons, hqne, Bool.false_eq_true, if_false]
      exact ih hrest hpr

/-- Filtering a reversed list is reversing the filtered list. -/
theorem filter_reverse_eq {α : Type} (q : α → Bool) :
    ∀ L : List α, L.reverse.filter q = (L.filter q).reverse := by
  intro L
  induction L with
  | nil => rfl
  | cons x xs ih =>
    cases hq : q x <;>
      simp [List.filter_append, ih, List.filter_cons, hq]

/-- A list whose filtrate is one element finds that element. -/
theorem find?_of_filter_singleton {α : Type} (q : α → Bool) (a : α) :
    ∀ L : List α, L.filter q = [a] → L.find? q = some a := by
  intro L
  induction L with
  | nil => intro h; simp at h
  | cons x xs ih =>
    intro h
    cases hq : q x with
    | true =>
      simp only [List.filter_cons, hq, if_true] at h
      injection h with h1 h2
      subst h1
      simp [List.find?_cons, hq]
    | false =>
      simp only [List.filter_cons, hq, Bool.false_eq_true, if_false] at h
      simp only [List.find?_cons, hq, Bool.false_eq_true, if_false]
      exact ih h

/-! ## Claim theorems -/

/-- C1: the claim says a directory add declaration expands into one entry
per file beneath the directory, with slash-joined relative destinations.
The code does not: build_list tests the whole "src=dst" string as a path,
so an ordinary directory declaration is skipped outright, and even when
the walk is reached, walk_list discards every walked entry, so no
sub-entry is ever produced.  Evaluated at the failing input (directory
assets containing the file assets/a.txt, declaration "assets=data"), the
manifest holds only the two mandatory entries. -/
theorem c1_walk_discards :
    build_list
        [("param.sfo", FsNode.file [0] 420), ("eboot.bin", FsNode.file [1] 420),
          ("assets", FsNode.dir), ("assets/a.txt", FsNode.file [9] 420)]
        "param.sfo" "eboot.bin" ["assets=data"] =
      .ok [⟨"param.sfo", "sce_sys/param.sfo"⟩, ⟨"eboot.bin", "eboot.bin"⟩] ∧
    walk_list
        [("param.sfo", FsNode.file [0] 420), ("eboot.bin", FsNode.file [1] 420),
          ("assets", FsNode.dir), ("assets/a.txt", FsNode.file [9] 420),
          ("assets=data", FsNode.dir)]
        ⟨"assets", "data"⟩ = [] ∧
    build_list
        [("param.sfo", FsNode.file [0] 420), ("eboot.bin", FsNode.file [1] 420),
          ("assets", FsNode.dir), ("assets/a.txt", FsNode.file [9] 420),
          ("assets=data", FsNode.dir)]
        "param.sfo" "eboot.bin" ["assets=data"] =
      .ok [⟨"param.sfo", "sce_sys/param.sfo"⟩, ⟨"eboot.bin", "eboot.bin"⟩] :=
  ⟨rfl, rfl, rfl⟩

/-- C2, counterexample: an add declaration whose source is a device file
("dev" is an other-kind node) and one whose source does not exist ("nx")
are both dropped silently: build_list succeeds with only the two
mandatory entries instead of failing. -/
theorem c2_counterexample :
    build_list
        [("param.sfo", FsNode.file [0] 420), ("eboot.bin", FsNode.file [1] 420),
          ("dev", FsNode.other)]
        "param.sfo" "eboot.bin" ["dev=out"] =
      .ok [⟨"param.sfo", "sce_sys/param.sfo"⟩, ⟨"eboot.bin", "eboot.bin"⟩] ∧
    build_list
        [("param.sfo", FsNode.file [0] 420), ("eboot.bin", FsNode.file [1] 420)]
        "param.sfo" "eboot.bin" ["nx=out"] =
      .ok [⟨"param.sfo", "sce_sys/param.sfo"⟩, ⟨"eboot.bin", "eboot.bin"⟩] :=
  ⟨rfl, rfl⟩

/-- C2, amended: an add declaration whose string is neither an existing
regular file nor an existing directory (in particular any declaration
whose source is missing or a special file) is silently skipped: the
build succeeds and contributes no entry for it, and no InvalidSource
error exists in the program. -/
theorem c2_silently_skipped (fs : Fs) (sfo eboot : String) (entry : String)
    (hs : path_exists fs sfo = true) (he : path_exists fs eboot = true)
    (hnf : is_file fs entry = false) (hnd : is_dir fs entry = false) :
    build_list fs sfo eboot [entry] =
      .ok [⟨sfo, "sce_sys/param.sfo"⟩, ⟨eboot, "eboot.bin"⟩] := by
  simp [build_list, make_add_list_ok hs, make_add_list_ok he, add_loop,
    add_entry, hnf, hnd, DEFAULT_SFO_VPK_PATH, DEFAULT_EBOOT_VPK_PATH]

/-- C2, witness for the amended theorem at a concrete input. -/
theorem c2_silently_skipped_witness :
    build_list [("p", FsNode.file [1] 420), ("e", FsNode.file [2] 420)]
        "p" "e" ["dev=out"] =
      .ok [⟨"p", "sce_sys/param.sfo"⟩, ⟨"e", "eboot.bin"⟩] :=
  c2_silently_skipped [("p", FsNode.file [1] 420), ("e", FsNode.file [2] 420)]
    "p" "e" "dev=out" rfl rfl rfl rfl

/-- C3: with both mandatory inputs present and no add declarations the
manifest is exactly the sfo entry aimed at sce_sys/param.sfo followed by
the eboot entry aimed at eboot.bin; and in every successful build those
two entries are first and second. -/
theorem c3_mandatory_entries (fs : Fs) (sfo eboot : String)
    (hs : path_exists fs sfo = true) (he : path_exists fs eboot = true) :
    build_list fs sfo eboot [] =
      .ok [⟨sfo, "sce_sys/param.sfo"⟩, ⟨eboot, "eboot.bin"⟩] ∧
    ∀ (adds : List String) (l : List AddList),
      build_list fs sfo eboot adds = .ok l →
      l.head? = some ⟨sfo, "sce_sys/param.sfo"⟩ ∧
      l[1]? = some ⟨eboot, "eboot.bin"⟩ := by
  constructor
  · simp [build_list, make_add_list_ok hs, make_add_list_ok he, add_loop,
      DEFAULT_SFO_VPK_PATH, DEFAULT_EBOOT_VPK_PATH]
  · intro adds l h
    rw [build_list, make_add_list_ok hs, make_add_list_ok he] at h
    cases hal : add_loop fs adds with
    | error e => rw [hal] at h; cases h
    | ok rest =>
      rw [hal] at h
      cases h
      simp [DEFAULT_SFO_VPK_PATH, DEFAULT_EBOOT_VPK_PATH]

/-- C3, witness at a concrete input. -/
theorem c3_mandatory_entries_witness :
    build_list [("p", FsNode.file [1] 420), ("e", FsNode.file [2] 420)]
        "p" "e" [] =
      .ok [⟨"p", "sce_sys/param.sfo"⟩, ⟨"e", "eboot.bin"⟩] ∧
    ∀ (adds : List String) (l : List AddList),
      build_list [("p", FsNode.file [1] 420), ("e", FsNode.file [2] 420)]
          "p" "e" adds = .ok l →
      l.head? = some ⟨"p", "sce_sys/param.sfo"⟩ ∧
      l[1]? = some ⟨"e", "eboot.bin"⟩ :=
  c3_mandatory_entries [("p", FsNode.file [1] 420), ("e", FsNode.file [2] 420)]
    "p" "e" rfl rfl

/-- C4: packing a manifest whose destinations are pairwise distinct and
whose sources are all readable succeeds, writes the records strictly in
list order (the container's name sequence is the manifest's destination
sequence), and the container read back holds exactly one record per
manifest destination whose bytes are the bytes of the matching source
file. -/
theorem c4_pack_roundtrip (fs : Fs) (l : List AddList)
    (hread : ∀ p ∈ l, (readFile fs p.src).isSome = true)
    (hnodup : (l.map AddList.dst).Nodup) :
    (pack_vpk fs noFaults true l).error = none ∧
    (pack_vpk fs noFaults true l).finished = true ∧
    (pack_vpk fs noFaults true l).records.map Record.name = l.map AddList.dst ∧
    ∀ p ∈ l, ∃ b, readFile fs p.src = some b ∧
      (pack_vpk fs noFaults true l).records.filter (fun r => r.name == p.dst)
        = [⟨p.dst, b, Method.stored, 0o755⟩] ∧
      readback (pack_vpk fs noFaults true l).records p.dst
        = some ⟨p.dst, b, Method.stored, 0o755⟩ := by
  have hc := packLoop_ok fs l 0 [] hread
  have hf : noFaults.finishFails = false := rfl
  have hres : pack_vpk fs noFaults true l =
      ⟨true, l.map (recOf fs), true, none⟩ := by
    simp [pack_vpk, hc, hf]
  refine ⟨by simp [hres], by simp [hres], ?_, ?_⟩
  · simp [hres, recOf, Function.comp_def]
  · intro p hp
    obtain ⟨b, hb⟩ := Option.isSome_iff_exists.mp (hread p hp)
    have hfil := filter_recOf_eq fs l p hnodup hp
    have hrec : recOf fs p = ⟨p.dst, b, Method.stored, 0o755⟩ := by
      simp [recOf, hb]
    refine ⟨b, hb, ?_, ?_⟩
    · rw [hres]
      simpa [hrec] using hfil
    · rw [hres]
      show readback (l.map (recOf fs)) p.dst = _
      rw [readback, find?_of_filter_singleton _ _ _
        (by rw [filter_reverse_eq, hfil]; rfl), hrec]

/-- C4, witness at a concrete two-entry manifest. -/
theorem c4_pack_roundtrip_witness :
    (pack_vpk [("p", FsNode.file [1] 420), ("e", FsNode.file [2] 420)] noFaults
        true [⟨"p", "sce_sys/param.sfo"⟩, ⟨"e", "eboot.bin"⟩]).error = none ∧
    (pack_vpk [("p", FsNode.file [1] 420), ("e", FsNode.file [2] 420)] noFaults
        true [⟨"p", "sce_sys/param.sfo"⟩, ⟨"e", "eboot.bin"⟩]).finished = true ∧
    (pack_vpk [("p", FsNode.file [1] 420), ("e", FsNode.file [2] 420)] noFaults
        true [⟨"p", "sce_sys/param.sfo"⟩, ⟨"e", "eboot.bin"⟩]).records.map
        Record.name =
      ([⟨"p", "sce_sys/param.sfo"⟩, ⟨"e", "eboot.bin"⟩] : List AddList).map
        AddList.dst ∧
    ∀ p ∈ ([⟨"p", "sce_sys/param.sfo"⟩, ⟨"e", "eboot.bin"⟩] : List AddList),
      ∃ b, readFile [("p", FsNode.file [1] 420), ("e", FsNode.file [2] 420)]
          p.src = some b ∧
        (pack_vpk [("p", FsNode.file [1] 420), ("e", FsNode.file [2] 420)]
            noFaults true
            [⟨"p", "sce_sys/param.sfo"⟩, ⟨"e", "eboot.bin"⟩]).records.filter
            (fun r => r.name == p.dst) = [⟨p.dst, b, Method.stored, 0o755⟩] ∧
        readback (pack_vpk [("p", FsNode.file [1] 420), ("e", FsNode.file [2] 420)]
            noFaults true
            [⟨"p", "sce_sys/param.sfo"⟩, ⟨"e", "eboot.bin"⟩]).records p.dst
          = some ⟨p.dst, b, Method.stored, 0o755⟩ :=
  c4_pack_roundtrip [("p", FsNode.file [1] 420), ("e", FsNode.file [2] 420)]
    [⟨"p", "sce_sys/param.sfo"⟩, ⟨"e", "eboot.bin"⟩] (by decide) (by decide)

/-- C5: every record written into the container carries the Stored
compression method and unix permission bits 0o755, whatever the
filesystem (in particular whatever the permission bits recorded on the
source files) and whatever faults occur. -/
theorem c5_stored_perms (fs : Fs) (flt : Faults) (canCreate : Bool)
    (l : List AddList) (r : Record)
    (hr : r ∈ (pack_vpk fs flt canCreate l).records) :
    r.method = Method.stored ∧ r.perms = 0o755 := by
  cases canCreate with
  | false => simp [pack_vpk] at hr
  | true =>
    rw [pack_vpk_records] at hr
    rcases packLoop_mem fs flt l 0 [] r hr with h0 | ⟨p, hp⟩
    · cases h0
    · subst hp
      exact ⟨rfl, rfl⟩

/-- C5, witness at a concrete packed record. -/
theorem c5_stored_perms_witness :
    (Record.mk "x" [1] Method.stored 493).method = Method.stored ∧
    (Record.mk "x" [1] Method.stored 493).perms = 0o755 :=
  c5_stored_perms [("a", FsNode.file [1] 0)] noFaults true [⟨"a", "x"⟩]
    ⟨"x", [1], Method.stored, 493⟩ (by decide)

/-- C6: when a mandatory source path does not exist (the metadata file
missing, or the metadata file fine and the binary missing), the run
fails with notFound while resolving the inputs, before the output
container file is created or truncated: the result reports the output
untouched and no record written. -/
theorem c6_notfound_before_create (fs : Fs) (flt : Faults) (canCreate : Bool)
    (sfo eboot : String) (adds : List String)
    (h : path_exists fs sfo = false ∨
      (is_file fs sfo = true ∧ path_exists fs eboot = false)) :
    (main_run fs flt canCreate sfo eboot adds).error = some PackError.notFound ∧
    (main_run fs flt canCreate sfo eboot adds).outCreated = false ∧
    (main_run fs flt canCreate sfo eboot adds).records = [] := by
  rcases h with h1 | ⟨hf, h2⟩
  · simp [main_run, check_file, h1]
  · have hex : path_exists fs sfo = true := is_file_exists hf
    simp [main_run, check_file, hex, hf, h2]

/-- C6, witness: a missing metadata file at a concrete input. -/
theorem c6_notfound_before_create_witness :
    (main_run [("e", FsNode.file [2] 420)] noFaults true "p" "e" []).error =
      some PackError.notFound ∧
    (main_run [("e", FsNode.file [2] 420)] noFaults true "p" "e" []).outCreated =
      false ∧
    (main_run [("e", FsNode.file [2] 420)] noFaults true "p" "e" []).records =
      [] :=
  c6_notfound_before_create [("e", FsNode.file [2] 420)] noFaults true "p" "e" []
    (Or.inl rfl)

/-- C7: whenever packing fails (unreadable source, record write failure
or finalization failure), it stops at the first failure: the output file
stays created, unfinalized and exactly as already written, namely the
records of some readable prefix of the manifest, identical to what a
fault-free pack of that prefix writes; nothing is written for later
entries and nothing is cleaned up. -/
theorem c7_pack_abort (fs : Fs) (flt : Faults) (l : List AddList)
    (e : PackError) (h : (pack_vpk fs flt true l).error = some e) :
    (pack_vpk fs flt true l).outCreated = true ∧
    (pack_vpk fs flt true l).finished = false ∧
    ∃ k, k ≤ l.length ∧
      (pack_vpk fs flt true l).records = (l.take k).map (recOf fs) ∧
      (pack_vpk fs flt true l).records =
        (pack_vpk fs noFaults true (l.take k)).records := by
  rcases hpl : packLoop fs flt l 0 [] with ⟨recs, err⟩
  cases err with
  | some e0 =>
    have hres : pack_vpk fs flt true l = ⟨true, recs, false, some e0⟩ := by
      simp [pack_vpk, hpl]
    obtain ⟨k, hk, hread, h1⟩ :=
      packLoop_err fs flt l 0 [] e0 (by rw [hpl])
    rw [hpl] at h1
    simp only [List.nil_append] at h1
    refine ⟨by simp [hres], by simp [hres], k, hk, ?_, ?_⟩
    · simp [hres, h1]
    · have hclean := packLoop_ok fs (l.take k) 0 [] hread
      have hfin : noFaults.finishFails = false := rfl
      have hcleanres : pack_vpk fs noFaults true (l.take k) =
          ⟨true, (l.take k).map (recOf fs), true, none⟩ := by
        simp [pack_vpk, hclean, hfin]
      rw [hres, hcleanres, h1]
  | none =>
    by_cases hfl : flt.finishFails = true
    · have hres : pack_vpk fs flt true l =
          ⟨true, recs, false, some .containerWrite⟩ := by
        simp [pack_vpk, hpl, hfl]
      obtain ⟨hread, h1⟩ := packLoop_none fs flt l 0 [] (by rw [hpl])
      rw [hpl] at h1
      simp only [List.nil_append] at h1
      refine ⟨by simp [hres], by simp [hres], l.length, le_refl _, ?_, ?_⟩
      · simp [hres, h1, List.take_length]
      · have hclean := packLoop_ok fs l 0 [] hread
        have hfin : noFaults.finishFails = false := rfl
        have hcleanres : pack_vpk fs noFaults true l =
            ⟨true, l.map (recOf fs), true, none⟩ := by
          simp [pack_vpk, hclean, hfin]
        rw [List.take_length, hres, hcleanres, h1]
    · have hres : pack_vpk fs flt true l = ⟨true, recs, true, none⟩ := by
        simp [pack_vpk, hpl, hfl]
      rw [hres] at h
      cases h

/-- C7, witness: packing a single entry whose source does not exist. -/
theorem c7_pack_abort_witness :
    (pack_vpk [] noFaults true [⟨"a", "x"⟩]).outCreated = true ∧
    (pack_vpk [] noFaults true [⟨"a", "x"⟩]).finished = false ∧
    ∃ k, k ≤ ([⟨"a", "x"⟩] : List AddList).length ∧
      (pack_vpk [] noFaults true [⟨"a", "x"⟩]).records =
        (([⟨"a", "x"⟩] : List AddList).take k).map (recOf []) ∧
      (pack_vpk [] noFaults true [⟨"a", "x"⟩]).records =
        (pack_vpk [] noFaults true
          (([⟨"a", "x"⟩] : List AddList).take k)).records :=
  c7_pack_abort [] noFaults [⟨"a", "x"⟩] PackError.sourceUnreadable rfl

/-- C8, counterexample: check_add accepts the declaration "=ab", whose
source part is empty, and the declaration "ab=", whose destination part
is empty, so the validator does not reject empty sides as the claim
states. -/
theorem c8_counterexample :
    check_add "=ab" = true ∧ (splitCh '=' "=ab".toList).headD [] = [] ∧
    check_add "ab=" = true ∧ (splitCh '=' "ab=".toList).getD 1 [] = [] := by
  decide

/-- C8, amended: check_add only requires the declaration string to
contain an equals sign and to be at least 3 characters long; it never
inspects the split halves, so a pair with an empty source or an empty
destination can reach the manifest builder (here the accepted
declaration "ab=" names the file "ab=" and yields the manifest entry
mapping the existing source "ab" to the empty destination). -/
theorem c8_validator_weak :
    (∀ v : String,
      check_add v = true ↔
        (v.toList.contains '=' = true ∧ 3 ≤ v.toList.length)) ∧
    check_add "ab=" = true ∧
    build_list
        [("p", FsNode.file [1] 420), ("e", FsNode.file [2] 420),
          ("ab=", FsNode.file [7] 420), ("ab", FsNode.file [5] 420)]
        "p" "e" ["ab="] =
      .ok [⟨"p", "sce_sys/param.sfo"⟩, ⟨"e", "eboot.bin"⟩, ⟨"ab", ""⟩] := by
  refine ⟨?_, by decide, rfl⟩
  intro v
  simp [check_add]

/-- C9: an add declaration that splits at equals signs into a source
piece, a destination piece and any further pieces produces the entry
mapping exactly the first piece to the second; everything after the
second equals sign is discarded. -/
theorem c9_split_discards (fs : Fs) (v : String) (s d : String)
    (rest : List (List Char))
    (hsplit : splitCh '=' v.toList = s.toList :: d.toList :: rest)
    (hex : path_exists fs s = true) :
    parse_add fs v = .ok ⟨s, d⟩ := by
  rw [parse_add]
  simp only [hsplit, List.headD_cons, List.getD_cons_succ, List.getD_cons_zero,
    mk_toList]
  exact make_add_list_ok hex

/-- C9, witness: the declaration "a=b=c" maps source "a" to destination
"b" and discards "c". -/
theorem c9_split_discards_witness :
    parse_add [("a", FsNode.file [3] 420)] "a=b=c" = .ok ⟨"a", "b"⟩ :=
  c9_split_discards [("a", FsNode.file [3] 420)] "a=b=c" "a" "b"
    ["c".toList] (by decide) rfl

/-- C10: pack_vpk creates (or truncates) the output container before it
opens any source, so when the very first source is unreadable the
failure report shows the output already created, with no record in it. -/
theorem c10_create_before_open (fs : Fs) (flt : Faults) (p : AddList)
    (rest : List AddList) (h : readFile fs p.src = none) :
    pack_vpk fs flt true (p :: rest) =
      ⟨true, [], false, some PackError.sourceUnreadable⟩ := by
  simp [pack_vpk, packLoop, h]

/-- C10, witness: a one-entry manifest whose source is missing. -/
theorem c10_create_before_open_witness :
    pack_vpk [] noFaults true [⟨"a", "x"⟩] =
      ⟨true, [], false, some PackError.sourceUnreadable⟩ :=
  c10_create_before_open [] noFaults ⟨"a", "x"⟩ [] rfl
